import Mathlib

/-
Verification development for the novel_translator repository.

Python strings are modelled as `List Char` (Python `len` counts code points,
as does `List.length`). Python dicts are modelled as insertion-ordered
association lists with unique keys maintained by `dictSet`. Fallible Python
code is modelled with `Option`/`Except`. External collaborators (the
`langdetect` statistical detector, the ONNX runtime session, the tone pass)
are passed as explicit parameters, following the collaborator contracts of
the specification; everything else is translated from the source files
`app/chapter_translate.py`, `app/detect_lang.py` and `app/glossary.py`.
-/

/-- Shorthand turning a string literal into the `List Char` representation
used throughout this development. -/
def cl (s : String) : List Char := s.data

/-- The set of characters stripped by Python `str.strip()` with no
arguments: ASCII whitespace, the C0 separator controls and the Unicode
space characters. -/
def isPyWhitespace (c : Char) : Bool :=
  c == ' ' || c == '\t' || c == '\n' || c == '\r' || c == '\x0b' || c == '\x0c' ||
  c == '\x1c' || c == '\x1d' || c == '\x1e' || c == '\x1f' || c == '\x85' ||
  c == '\xa0' ||
  decide (c.toNat = 0x1680) ||
  decide (0x2000 ≤ c.toNat ∧ c.toNat ≤ 0x200a) ||
  decide (c.toNat = 0x2028) || decide (c.toNat = 0x2029) ||
  decide (c.toNat = 0x202f) || decide (c.toNat = 0x205f) ||
  decide (c.toNat = 0x3000)

/-- Python `str.lstrip()`. -/
def pyLstrip (cs : List Char) : List Char := cs.dropWhile isPyWhitespace

/-- Python `str.rstrip()`. -/
def pyRstrip (cs : List Char) : List Char :=
  (cs.reverse.dropWhile isPyWhitespace).reverse

/-- Python `str.strip()`. -/
def pyStrip (cs : List Char) : List Char := pyRstrip (pyLstrip cs)

/-- Python `str.lower()` (modelled on the ASCII range, which covers every
use in this code base). -/
def pyLower (cs : List Char) : List Char := cs.map Char.toLower

/-- Python `str.upper()` (modelled on the ASCII range, which covers the
language codes it is applied to). -/
def pyUpper (cs : List Char) : List Char := cs.map Char.toUpper

/-- Scan for non-overlapping occurrences of `needle`: `skip` counts the
positions still covered by the previous match. -/
def countOccAux (needle : List Char) : List Char → Nat → Nat
  | [], _ => 0
  | _ :: rest, Nat.succ skip => countOccAux needle rest skip
  | c :: rest, 0 =>
    if needle.isPrefixOf (c :: rest) then
      1 + countOccAux needle rest (needle.length - 1)
    else
      countOccAux needle rest 0

/-- Python `str.count`: number of non-overlapping occurrences of `needle`,
scanning left to right. -/
def countOcc (needle : List Char) (hay : List Char) : Nat :=
  if needle = [] then hay.length + 1 else countOccAux needle hay 0

/-- Lookup in a Python dict modelled as an association list
(`d.get(k)` / `d[k]`). -/
def dictGet {α : Type} : List (List Char × α) → List Char → Option α
  | [], _ => none
  | p :: d, k => if p.1 = k then some p.2 else dictGet d k

/-- Python `k in d`. -/
def dictMem {α : Type} (d : List (List Char × α)) (k : List Char) : Bool :=
  (dictGet d k).isSome

/-- Python `d.get(k, v0)`. -/
def dictGetD {α : Type} (d : List (List Char × α)) (k : List Char) (v0 : α) : α :=
  (dictGet d k).getD v0

/-- Python `d[k] = v`: an existing key keeps its position, a new key is
appended at the end (insertion order). -/
def dictSet {α : Type} : List (List Char × α) → List Char → α → List (List Char × α)
  | [], k, v => [(k, v)]
  | p :: d, k, v => if p.1 = k then (k, v) :: d else p :: dictSet d k v

/-- Python `text.replace(chr(10), chr(32))` as used by the chunker. -/
def replaceNewlines (cs : List Char) : List Char :=
  cs.map (fun c => if c = '\n' then ' ' else c)

/-- Python `text.split(sep)` for the fixed two-character separator
`". "` (period-space): leftmost non-overlapping matches, empty pieces
kept. The accumulator holds the current piece reversed. -/
def splitDotSpace : List Char → List Char → List (List Char)
  | [], acc => [acc.reverse]
  | [c], acc => [(c :: acc).reverse]
  | c1 :: c2 :: rest, acc =>
    if c1 = '.' ∧ c2 = ' ' then acc.reverse :: splitDotSpace rest []
    else splitDotSpace (c2 :: rest) (c1 :: acc)

/-- The sentence-fragment list produced at the top of
`split_text_into_chunks`: newlines normalised to spaces, then split on the
literal `". "`. -/
def pySentences (text : List Char) : List (List Char) :=
  splitDotSpace (replaceNewlines text) []

/-- The accumulation loop of `split_text_into_chunks`
(`app/chapter_translate.py`): greedily extend the current buffer with
`sentence + ". "` while the length test passes, otherwise flush the
trimmed buffer. -/
def splitChunksLoop (max_chunk_size : Nat) :
    List (List Char) → List Char → List (List Char)
  | [], current => if current = [] then [] else [pyStrip current]
  | s :: rest, current =>
    if current.length + s.length + 2 ≤ max_chunk_size then
      splitChunksLoop max_chunk_size rest (current ++ s ++ ['.', ' '])
    else
      (if current = [] then [] else [pyStrip current]) ++
        splitChunksLoop max_chunk_size rest (s ++ ['.', ' '])

/-- `split_text_into_chunks` from `app/chapter_translate.py`. -/
def split_text_into_chunks (text : List Char) (max_chunk_size : Nat) :
    List (List Char) :=
  splitChunksLoop max_chunk_size (pySentences text) []

example : split_text_into_chunks (cl "aa") 2 = [cl "aa."] := by decide
example : split_text_into_chunks (cl "") 512 = [cl "."] := by decide
example : split_text_into_chunks (cl "Hello. World") 512 = [cl "Hello. World."] := by decide
example : split_text_into_chunks (cl "Hello. World") 8 = [cl "Hello.", cl "World."] := by decide

/-- The per-language marker lists of `fallback_language_detection`
(`app/detect_lang.py`), transcribed verbatim, duplicates included. -/
def patterns : List (List Char × List (List Char)) := [
  (cl ("es"), [cl ("el "), cl ("la "), cl ("de "), cl ("que "), cl ("y "), cl ("a "),
    cl ("en "), cl ("un "), cl ("es "), cl ("se "), cl ("no "), cl ("te "), cl ("lo "),
    cl ("le "), cl ("da "), cl ("su "), cl ("por "), cl ("son "), cl ("con "),
    cl ("para "), cl ("una "), cl ("son "), cl ("del "), cl ("al "), cl ("qué "),
    cl ("más")]),
  (cl ("fr"), [cl ("le "), cl ("de "), cl ("et "), cl ("à "), cl ("un "), cl ("il "),
    cl ("être "), cl ("et "), cl ("en "), cl ("avoir "), cl ("que "), cl ("pour "),
    cl ("dans "), cl ("ce "), cl ("son "), cl ("une "), cl ("sur "), cl ("avec "),
    cl ("ne "), cl ("se "), cl ("pas "), cl ("tout "), cl ("plus "), cl ("par "),
    cl ("grand"), cl ("où"), cl ("ou"), cl ("qui")]),
  (cl ("de"), [cl ("der "), cl ("die "), cl ("und "), cl ("in "), cl ("den "),
    cl ("von "), cl ("zu "), cl ("das "), cl ("mit "), cl ("sich "), cl ("des "),
    cl ("auf "), cl ("für "), cl ("ist "), cl ("im "), cl ("dem "), cl ("nicht "),
    cl ("ein "), cl ("eine "), cl ("als "), cl ("auch "), cl ("es "), cl ("an "),
    cl ("werden"), cl ("aus"), cl ("er"), cl ("hat"), cl ("dass")]),
  (cl ("it"), [cl ("il "), cl ("di "), cl ("che "), cl ("e "), cl ("la "),
    cl ("per "), cl ("un "), cl ("in "), cl ("con "), cl ("del "), cl ("da "),
    cl ("a "), cl ("al "), cl ("sono "), cl ("le "), cl ("si "), cl ("gli "),
    cl ("una"), cl ("dei"), cl ("nel"), cl ("alla"), cl ("come"), cl ("più"),
    cl ("anche"), cl ("tutto"), cl ("già")]),
  (cl ("pt"), [cl ("de "), cl ("a "), cl ("o "), cl ("que "), cl ("e "), cl ("do "),
    cl ("da "), cl ("em "), cl ("um "), cl ("para "), cl ("é "), cl ("com "),
    cl ("não "), cl ("uma "), cl ("os "), cl ("no "), cl ("se "), cl ("na "),
    cl ("por "), cl ("mais"), cl ("das"), cl ("dos"), cl ("como"), cl ("mas"),
    cl ("foi"), cl ("ao"), cl ("ele")]),
  (cl ("ja"), [cl ("の"), cl ("に"), cl ("は"), cl ("を"), cl ("た"), cl ("が"),
    cl ("で"), cl ("て"), cl ("と"), cl ("し"), cl ("れ"), cl ("さ"), cl ("ある"),
    cl ("いる"), cl ("も"), cl ("する"), cl ("から"), cl ("な"), cl ("こと"),
    cl ("として"), cl ("い"), cl ("や"), cl ("れる"), cl ("など"), cl ("なっ"),
    cl ("また"), cl ("その"), cl ("これ")]),
  (cl ("ko"), [cl ("이"), cl ("의"), cl ("가"), cl ("을"), cl ("는"), cl ("에"),
    cl ("과"), cl ("로"), cl ("으로"), cl ("에서"), cl ("와"), cl ("한"), cl ("하"),
    cl ("되"), cl ("있"), cl ("들"), cl ("것"), cl ("수"), cl ("등"), cl ("같"),
    cl ("후"), cl ("전"), cl ("다시"), cl ("또"), cl ("통해"), cl ("위해"),
    cl ("대한"), cl ("따른")]),
  (cl ("zh"), [cl ("的"), cl ("一"), cl ("是"), cl ("在"), cl ("不"), cl ("了"),
    cl ("有"), cl ("和"), cl ("人"), cl ("这"), cl ("中"), cl ("大"), cl ("为"),
    cl ("上"), cl ("个"), cl ("国"), cl ("我"), cl ("以"), cl ("要"), cl ("他"),
    cl ("时"), cl ("来"), cl ("用"), cl ("们"), cl ("生"), cl ("到"), cl ("作"),
    cl ("地"), cl ("于"), cl ("出"), cl ("就")]),
  (cl ("ru"), [cl ("и "), cl ("в "), cl ("не "), cl ("на "), cl ("я "),
    cl ("быть "), cl ("он "), cl ("с "), cl ("что "), cl ("а "), cl ("по "),
    cl ("это "), cl ("она "), cl ("этот "), cl ("к "), cl ("но "), cl ("они "),
    cl ("мы "), cl ("как "), cl ("из "), cl ("у "), cl ("который "), cl ("то "),
    cl ("за "), cl ("свой "), cl ("что "), cl ("же")])]

/-- Python `max(scores, key=scores.get)` over an association list in
iteration order: the first key attaining the maximal value. -/
def argmaxFirst : List (List Char × Nat) → Option (List Char × Nat)
  | [] => none
  | (k, v) :: rest =>
    match argmaxFirst rest with
    | none => some (k, v)
    | some (k1, v1) => if v1 > v then some (k1, v1) else some (k, v)

/-- The Unicode code-point range checks at the end of
`fallback_language_detection` (`app/detect_lang.py`), tried in source
order. -/
def charRangeDetection (text : List Char) : List Char :=
  if text.any (fun c => decide (0x4E00 ≤ c.toNat ∧ c.toNat ≤ 0x9FFF)) then cl ("zh")
  else if text.any (fun c => decide (0x3040 ≤ c.toNat ∧ c.toNat ≤ 0x309F)) then cl ("ja")
  else if text.any (fun c => decide (0x30A0 ≤ c.toNat ∧ c.toNat ≤ 0x30FF)) then cl ("ja")
  else if text.any (fun c => decide (0xAC00 ≤ c.toNat ∧ c.toNat ≤ 0xD7AF)) then cl ("ko")
  else if text.any (fun c => decide (0x0400 ≤ c.toNat ∧ c.toNat ≤ 0x04FF)) then cl ("ru")
  else cl ("en")

/-- The tail of `fallback_language_detection` after the score dict has
been built: return the argmax language when its score is positive,
otherwise fall through to the code-point range checks. -/
def scorePick (scores : List (List Char × Nat)) (text : List Char) : List Char :=
  match argmaxFirst scores with
  | some (detected_lang, score) =>
    if 0 < score then detected_lang else charRangeDetection text
  | none => charRangeDetection text

/-- `fallback_language_detection` from `app/detect_lang.py`: score each
candidate language by summing substring counts of its markers in the
lower-cased text, return the argmax when its score is positive, otherwise
fall back to code-point range sniffing, and default to English. -/
def fallback_language_detection (text : List Char) : List Char :=
  if text = [] then cl ("en")
  else
    scorePick
      (patterns.map (fun p => (p.1, (p.2.map (fun w => countOcc w (pyLower text))).sum)))
      text

/-- Outcome of the `try` block of `detect_language` as determined by the
external `langdetect` library: a detected code, a `LangDetectException`
raised by a present detector, an `ImportError` because the library is
absent, or any other exception raised by a present detector. -/
inductive DetectorResult where
  | detected (code : List Char)
  | langDetectError
  | importError
  | otherError
deriving DecidableEq

/-- The `language_mapping` alias table of `detect_language`. -/
def language_mapping : List (List Char × List Char) :=
  [(cl ("zh-cn"), cl ("zh")), (cl ("zh-tw"), cl ("zh"))]

/-- `detect_language` from `app/detect_lang.py`, with the external
statistical detector passed as a parameter: empty or whitespace-only
input defaults to English; the text is truncated to its first 1000
characters; a `LangDetectException` or any other exception from a present
detector falls through to the heuristic fallback; alias codes are folded
by `language_mapping`. When the library is absent, however, the function
raises rather than falling back: the first handler, written
`except LangDetectException`, evaluates a name that the failed
`from langdetect import detect, LangDetectException` never bound, so an
`UnboundLocalError` propagates to the caller and the later
`except ImportError` handler is never consulted. That propagated error is
the `Except.error` result here. -/
def detect_language (detector : List Char → DetectorResult) (text : List Char) :
    Except Unit (List Char) :=
  if text = [] ∨ pyStrip text = [] then Except.ok (cl ("en"))
  else
    let clean_text := (pyStrip text).take 1000
    match detector clean_text with
    | .detected code => Except.ok (dictGetD language_mapping code code)
    | .langDetectError => Except.ok (fallback_language_detection clean_text)
    | .importError => Except.error ()
    | .otherError => Except.ok (fallback_language_detection clean_text)

/-- The language codes that `fallback_language_detection` can produce:
the nine pattern-scored languages plus the English default. -/
def knownLanguageCodes : List (List Char) :=
  [cl ("es"), cl ("fr"), cl ("de"), cl ("it"), cl ("pt"), cl ("ja"), cl ("ko"),
   cl ("zh"), cl ("ru"), cl ("en")]

example : fallback_language_detection (cl "hi") = cl "en" := by decide
example : fallback_language_detection (cl "el que la ") = cl "es" := by decide
example : detect_language (fun _ => DetectorResult.importError) (cl "  ")
    = Except.ok (cl "en") := rfl
example : detect_language (fun _ => DetectorResult.importError) (cl "x")
    = Except.error () := rfl
example : detect_language (fun _ => DetectorResult.langDetectError) (cl "x")
    = Except.ok (fallback_language_detection (cl "x")) := rfl
example : detect_language (fun _ => DetectorResult.detected (cl "zh-cn")) (cl "x")
    = Except.ok (cl "zh") := rfl

/-- The external ONNX model session as seen by `translate_text_chunk`:
given the chunk and the two language codes it either raises (modelled by
`Except.error`) or returns the `outputs` list of output batches. -/
def ModelSession : Type :=
  List Char → List Char → List Char → Except Unit (List (List (List Char)))

/-- `translate_text_chunk` from `app/chapter_translate.py`: a missing
session yields the mock placeholder; a raising invocation is caught and
yields the same placeholder; otherwise `outputs[0][0]` is returned when
`outputs` and `outputs[0]` are non-empty, and the original chunk
otherwise. -/
def translate_text_chunk (text_chunk : List Char) (model_session : Option ModelSession)
    (source_lang target_lang : List Char) : List Char :=
  match model_session with
  | none => '[' :: (pyUpper target_lang ++ ']' :: ' ' :: text_chunk)
  | some run =>
    match run text_chunk source_lang target_lang with
    | .error _ => '[' :: (pyUpper target_lang ++ ']' :: ' ' :: text_chunk)
    | .ok outputs =>
      match outputs with
      | [] => text_chunk
      | first :: _ =>
        match first with
        | [] => text_chunk
        | t :: _ => t

/-- The in-memory state of a `Glossary` instance (`app/glossary.py`):
the `_terms`, `_usage_count` and `_context` dicts. -/
structure Glossary where
  terms : List (List Char × List Char)
  usage_count : List (List Char × Nat)
  context : List (List Char × List (List Char))
deriving DecidableEq

/-- A freshly constructed `Glossary()`. -/
def emptyGlossary : Glossary := ⟨[], [], []⟩

/-- `Glossary.add_term` from `app/glossary.py`: no-op on empty or
whitespace-only `original`; trims both strings; last-write-wins on the
translation; increments the usage count; appends a non-empty context
string unless it already occurs in the term's history, truncating the
history to its last five entries. -/
def add_term (g : Glossary) (original translated : List Char)
    (context : Option (List Char)) : Glossary :=
  if original = [] ∨ pyStrip original = [] then g
  else
    let o := pyStrip original
    let t := pyStrip translated
    let terms1 := dictSet g.terms o t
    let usage1 := dictSet g.usage_count o (dictGetD g.usage_count o 0 + 1)
    let context1 :=
      match context with
      | none => g.context
      | some ctx =>
        if ctx = [] then g.context
        else
          let hist := dictGetD g.context o []
          if ctx ∈ hist then g.context
          else
            let newHist := hist ++ [ctx]
            dictSet g.context o
              (if 5 < newHist.length then newHist.drop (newHist.length - 5) else newHist)
    ⟨terms1, usage1, context1⟩

/-- `Glossary.get_translation`: `none` on empty or whitespace-only input,
on an absent key, and on a stored translation that is empty or
whitespace-only. -/
def get_translation (g : Glossary) (original : List Char) : Option (List Char) :=
  if original = [] ∨ pyStrip original = [] then none
  else
    match dictGet g.terms (pyStrip original) with
    | none => none
    | some translation =>
      if translation ≠ [] ∧ pyStrip translation ≠ [] then some translation else none

/-- `Glossary.has_term`: membership of the trimmed term, `False` for a
falsy argument. -/
def has_term (g : Glossary) (original : List Char) : Bool :=
  if original = [] then false else dictMem g.terms (pyStrip original)

/-- `Glossary.get_usage_count`: count of the trimmed term, defaulting to
zero; a falsy argument looks up the empty key. -/
def get_usage_count (g : Glossary) (original : List Char) : Nat :=
  dictGetD g.usage_count (if original = [] then [] else pyStrip original) 0

/-- One iteration of the `merge_glossary` loop over an item of the other
glossary's term dict (`app/glossary.py`): a locally present key is
re-added (through `add_term`) exactly when `prefer_existing` is false or
the local translation is empty, and its usage count is then overwritten
with the sum of the local count so far and the other glossary's count; an
absent key is added and its count overwritten with the other's count. -/
def mergeStep (other : Glossary) (prefer_existing : Bool) (g : Glossary)
    (kv : List Char × List Char) : Glossary :=
  if dictMem g.terms kv.1 then
    let g1 :=
      if prefer_existing = false ∨ dictGetD g.terms kv.1 [] = [] then
        add_term g kv.1 kv.2 none
      else g
    { g1 with
      usage_count :=
        dictSet g1.usage_count kv.1
          (dictGetD g1.usage_count kv.1 0 + get_usage_count other kv.1) }
  else
    let g1 := add_term g kv.1 kv.2 none
    { g1 with
      usage_count := dictSet g1.usage_count kv.1 (get_usage_count other kv.1) }

/-- `Glossary.merge_glossary`: fold `mergeStep` over the other glossary's
term items in insertion order. -/
def merge_glossary (g other : Glossary) (prefer_existing : Bool) : Glossary :=
  other.terms.foldl (mergeStep other prefer_existing) g

/-- A value of the JSON snapshot document written by `save_to_file`: one
of the three typed maps. -/
inductive JsonValue where
  | strMap : List (List Char × List Char) → JsonValue
  | natMap : List (List Char × Nat) → JsonValue
  | listMap : List (List Char × List (List Char)) → JsonValue
deriving DecidableEq

/-- `Glossary.save_to_file` (`app/glossary.py`), modelled at the level of
the structured JSON document of spec §6 (serialisation by the external
`json` library is assumed faithful): the `glossary_data` dict with its
three named fields. -/
def save_to_file (g : Glossary) : List (List Char × JsonValue) :=
  [(cl ("terms"), JsonValue.strMap g.terms),
   (cl ("usage_count"), JsonValue.natMap g.usage_count),
   (cl ("context"), JsonValue.listMap g.context)]

/-- `Glossary.load_from_file`, success path: each of the three maps is
read from the document with `glossary_data.get(field, default)` and
replaces the in-memory state entirely. -/
def load_from_file (_g : Glossary) (file : List (List Char × JsonValue)) : Glossary :=
  { terms :=
      match dictGet file (cl ("terms")) with
      | some (JsonValue.strMap m) => m
      | _ => []
    usage_count :=
      match dictGet file (cl ("usage_count")) with
      | some (JsonValue.natMap m) => m
      | _ => []
    context :=
      match dictGet file (cl ("context")) with
      | some (JsonValue.listMap m) => m
      | _ => [] }

/-- Per-chunk step of the `translate_chapter` loop
(`app/chapter_translate.py`): reuse a non-empty glossary translation of
the exact chunk, otherwise translate through the backend and commit the
result to the glossary; then apply the tone pass, passing the text
through unchanged when it raises. -/
def processChunk (emotion : List Char → Except Unit (List Char))
    (session : Option ModelSession) (source_lang target_lang : List Char)
    (acc : List (List Char) × Glossary) (chunk : List Char) :
    List (List Char) × Glossary :=
  let translatedAndG :=
    match get_translation acc.2 chunk with
    | some t => (t, acc.2)
    | none =>
      let t := translate_text_chunk chunk session source_lang target_lang
      (t, add_term acc.2 chunk t none)
  let finalChunk :=
    match emotion translatedAndG.1 with
    | .ok e => e
    | .error _ => translatedAndG.1
  (acc.1 ++ [finalChunk], translatedAndG.2)

/-- `translate_chapter` from `app/chapter_translate.py`, with the file
system, the statistical detector, the backend session and the tone pass
passed as parameters: a missing file propagates the error; an empty or
whitespace-only chapter returns the empty string at once; an error raised
inside `detect_language` propagates (nothing catches it here); identical
detected source and target languages return the original text; otherwise
the text is chunked with the default size 512 and processed chunk by
chunk against the chapter glossary, and the results are joined with
single spaces. The returned pair carries the chapter glossary state. -/
def translate_chapter (detector : List Char → DetectorResult)
    (emotion : List Char → Except Unit (List Char))
    (session : Option ModelSession) (content : Option (List Char))
    (target_lang : List Char) (g : Glossary) :
    Except Unit (List Char × Glossary) :=
  match content with
  | none => Except.error ()
  | some original_text =>
    if pyStrip original_text = [] then Except.ok ([], g)
    else
      match detect_language detector original_text with
      | Except.error e => Except.error e
      | Except.ok source_lang =>
        if source_lang = target_lang then Except.ok (original_text, g)
        else
          let folded :=
            (split_text_into_chunks original_text 512).foldl
              (processChunk emotion session source_lang target_lang) ([], g)
          Except.ok (List.intercalate [' '] folded.1, folded.2)

/-- A detector standing for an absent `langdetect` library. -/
def failDetector : List Char → DetectorResult := fun _ => DetectorResult.importError

/-- A present detector that always raises `LangDetectException`. -/
def ldeDetector : List Char → DetectorResult := fun _ => DetectorResult.langDetectError

/-- A detector that always reports Spanish. -/
def esDetector : List Char → DetectorResult :=
  fun _ => DetectorResult.detected (cl ("es"))

/-- A tone pass that succeeds and returns its input unchanged. -/
def idEmotion : List Char → Except Unit (List Char) := fun t => Except.ok t

/-- Fixture: a glossary holding term `k`, translation `v1`, usage count 2. -/
def gLocal : Glossary :=
  ⟨[(cl ("k"), cl ("v1"))], [(cl ("k"), 2)], []⟩

/-- Fixture: a glossary holding term `k`, translation `v2`, usage count 3. -/
def gOther : Glossary :=
  ⟨[(cl ("k"), cl ("v2"))], [(cl ("k"), 3)], []⟩

/-- Fixture: a glossary whose term `t` has context history `a`, `b`. -/
def gCtx : Glossary :=
  ⟨[(cl ("t"), cl ("x"))], [(cl ("t"), 1)], [(cl ("t"), [cl ("a"), cl ("b")])]⟩

example : dictGetD (merge_glossary gLocal gOther false).usage_count (cl "k") 0 = 6 := by decide
example : dictGetD (merge_glossary gLocal gOther true).usage_count (cl "k") 0 = 5 := by decide
example : dictGet (merge_glossary gLocal gOther true).terms (cl "k") = some (cl "v1") := by decide
example : dictGet (add_term gCtx (cl "t") (cl "v") (some (cl "a"))).context (cl "t")
    = some [cl "a", cl "b"] := by decide
example : translate_chapter failDetector idEmotion none (some [' ']) (cl "en") emptyGlossary
    = Except.ok ([], emptyGlossary) := by rfl
example : translate_chapter esDetector idEmotion none (some (cl "hi")) (cl "es") emptyGlossary
    = Except.ok (cl "hi", emptyGlossary) := by rfl
example : translate_chapter ldeDetector idEmotion none (some (cl "Hello. World")) (cl "es") emptyGlossary
    = Except.ok (cl "[ES] Hello. World.",
        add_term emptyGlossary (cl "Hello. World.") (cl "[ES] Hello. World.") none) := by rfl
example : translate_chapter failDetector idEmotion none (some (cl "Hello. World")) (cl "es") emptyGlossary
    = Except.error () := by rfl

/-- Setting a key makes it retrievable with the written value. -/
theorem dictGet_dictSet_self {α : Type} (d : List (List Char × α)) (k : List Char) (v : α) :
    dictGet (dictSet d k v) k = some v := by
  induction d with
  | nil => simp [dictSet, dictGet]
  | cons p d ih =>
    by_cases h : p.1 = k
    · simp [dictSet, h, dictGet]
    · simp [dictSet, h, dictGet, ih]

/-- Setting one key leaves lookups of a different key unchanged. -/
theorem dictGet_dictSet_ne {α : Type} (d : List (List Char × α)) (k1 k2 : List Char)
    (v : α) (h : k1 ≠ k2) : dictGet (dictSet d k1 v) k2 = dictGet d k2 := by
  induction d with
  | nil => simp [dictSet, dictGet, h]
  | cons p d ih =>
    by_cases hp : p.1 = k1
    · simp [dictSet, dictGet, hp, h]
    · simp [dictSet, dictGet, hp, ih]

/-- A successful lookup splits the association list around the first
entry holding the key. -/
theorem dictGet_split {α : Type} (d : List (List Char × α)) (k : List Char) (v : α)
    (h : dictGet d k = some v) :
    ∃ d1 d2, d = d1 ++ (k, v) :: d2 ∧ ∀ p ∈ d1, p.1 ≠ k := by
  induction d with
  | nil => simp [dictGet] at h
  | cons p d ih =>
    obtain ⟨k0, v0⟩ := p
    by_cases hp : k0 = k
    · subst hp
      simp [dictGet] at h
      subst h
      exact ⟨[], d, rfl, by simp⟩
    · simp [dictGet, hp] at h
      obtain ⟨d1, d2, rfl, hd1⟩ := ih h
      exact ⟨(k0, v0) :: d1, d2, rfl, by
        intro q hq
        rcases List.mem_cons.mp hq with rfl | hq1
        · exact hp
        · exact hd1 q hq1⟩

/-- Dropping a prefix never lengthens a list. -/
theorem dropWhile_length_le {α : Type} (p : α → Bool) (l : List α) :
    (List.dropWhile p l).length ≤ l.length := by
  induction l with
  | nil => simp
  | cons a l ih =>
    rw [List.dropWhile_cons]
    split
    · exact le_trans ih (by simp)
    · simp

/-- Stripping never lengthens a string. -/
theorem length_pyStrip_le (cs : List Char) : (pyStrip cs).length ≤ cs.length := by
  have h1 := dropWhile_length_le isPyWhitespace cs
  have h2 := dropWhile_length_le isPyWhitespace (pyLstrip cs).reverse
  simp only [pyStrip, pyRstrip, pyLstrip, List.length_reverse] at *
  omega

/-- Left-stripping stops at the non-whitespace period of an appended
`". "` suffix. -/
theorem pyLstrip_append_dot_space (w : List Char) :
    pyLstrip (w ++ ['.', ' ']) = pyLstrip w ++ ['.', ' '] := by
  induction w with
  | nil => decide
  | cons c w ih =>
    by_cases h : isPyWhitespace c
    · simpa [pyLstrip, List.dropWhile_cons, h] using ih
    · simp [pyLstrip, List.dropWhile_cons, h]

/-- Right-stripping an appended `". "` suffix removes exactly the
trailing space. -/
theorem pyRstrip_append_dot_space (y : List Char) :
    pyRstrip (y ++ ['.', ' ']) = y ++ ['.'] := by
  have hsp : isPyWhitespace ' ' = true := by decide
  have hdot : isPyWhitespace '.' = false := by decide
  simp [pyRstrip, List.reverse_append, List.dropWhile_cons, hsp, hdot]

/-- Stripping a buffer that ends in `". "` keeps everything from the
first non-whitespace character through the period. -/
theorem pyStrip_append_dot_space (w : List Char) :
    pyStrip (w ++ ['.', ' ']) = pyLstrip w ++ ['.'] := by
  rw [pyStrip, pyLstrip_append_dot_space, pyRstrip_append_dot_space]

/-- The Python split always yields at least one piece. -/
theorem splitDotSpace_ne_nil : ∀ (cs acc : List Char), splitDotSpace cs acc ≠ []
  | [], acc => by simp [splitDotSpace]
  | [c], acc => by simp [splitDotSpace]
  | c1 :: c2 :: rest, acc => by
    rw [splitDotSpace]
    split
    · simp
    · exact splitDotSpace_ne_nil (c2 :: rest) (c1 :: acc)

/-- The chunk loop returns at least one chunk when fed a non-empty
fragment list or a non-empty buffer. -/
theorem splitChunksLoop_ne_nil (M : Nat) :
    ∀ (l : List (List Char)) (cur : List Char), l ≠ [] ∨ cur ≠ [] →
    splitChunksLoop M l cur ≠ []
  | [], cur, h => by
    rcases h with h | h
    · exact absurd rfl h
    · simp [splitChunksLoop, h]
  | s :: rest, cur, _ => by
    rw [splitChunksLoop]
    split
    · exact splitChunksLoop_ne_nil M rest (cur ++ s ++ ['.', ' ']) (Or.inr (by simp))
    · intro hc
      have h2 := (List.append_eq_nil.mp hc).2
      exact splitChunksLoop_ne_nil M rest (s ++ ['.', ' ']) (Or.inr (by simp)) h2

/-- Every chunk the loop emits is a left-stripped buffer with a final
period, provided the incoming buffer is empty or ends in `". "`. -/
theorem splitChunksLoop_shape (M : Nat) :
    ∀ (l : List (List Char)) (cur : List Char),
    (cur = [] ∨ ∃ w, cur = w ++ ['.', ' ']) →
    ∀ c ∈ splitChunksLoop M l cur, ∃ w, c = pyLstrip w ++ ['.']
  | [], cur, hinv => by
    rcases hinv with rfl | ⟨w, rfl⟩
    · simp [splitChunksLoop]
    · intro c hc
      simp [splitChunksLoop] at hc
      exact ⟨w, by rw [hc, pyStrip_append_dot_space]⟩
  | s :: rest, cur, hinv => by
    rw [splitChunksLoop]
    split
    · exact splitChunksLoop_shape M rest _ (Or.inr ⟨cur ++ s, by simp⟩)
    · intro c hc
      rcases List.mem_append.mp hc with hc1 | hc2
      · rcases hinv with rfl | ⟨w, rfl⟩
        · simp at hc1
        · simp at hc1
          exact ⟨w, by rw [hc1, pyStrip_append_dot_space]⟩
      · exact splitChunksLoop_shape M rest _ (Or.inr ⟨s, rfl⟩) c hc2

/-- Size analysis of the chunk loop: every emitted chunk either fits the
bound or is a single trimmed oversized fragment with its appended
period. -/
theorem splitChunksLoop_le (M : Nat) (sen : List (List Char)) :
    ∀ (l : List (List Char)) (cur : List Char),
    (∀ x ∈ l, x ∈ sen) →
    (cur = [] ∨ cur.length ≤ M ∨ ∃ s, s ∈ sen ∧ cur = s ++ ['.', ' '] ∧ M < s.length + 2) →
    ∀ c ∈ splitChunksLoop M l cur,
      c.length ≤ M ∨ ∃ s, s ∈ sen ∧ c = pyStrip (s ++ ['.', ' ']) ∧ M < s.length + 2
  | [], cur, _, hinv => by
    intro c hc
    rcases hinv with rfl | hinv2
    · simp [splitChunksLoop] at hc
    · by_cases hcur : cur = []
      · simp [splitChunksLoop, hcur] at hc
      · simp [splitChunksLoop, hcur] at hc
        rcases hinv2 with hle | ⟨s, hs, rfl, hlen⟩
        · exact Or.inl (hc ▸ le_trans (length_pyStrip_le cur) hle)
        · exact Or.inr ⟨s, hs, hc, hlen⟩
  | s :: rest, cur, hmem, hinv => by
    rw [splitChunksLoop]
    split
    · refine splitChunksLoop_le M sen rest _ (fun x hx => hmem x (List.mem_cons_of_mem s hx)) (Or.inr (Or.inl ?_))
      rename_i hfit
      simp only [List.length_append, List.length_cons, List.length_nil]
      omega
    · intro c hc
      rcases List.mem_append.mp hc with hc1 | hc2
      · by_cases hcur : cur = []
        · simp [hcur] at hc1
        · simp [hcur] at hc1
          rcases hinv with rfl | hinv2
          · exact absurd rfl hcur
          · rcases hinv2 with hle | ⟨s0, hs0, rfl, hlen⟩
            · exact Or.inl (hc1 ▸ le_trans (length_pyStrip_le cur) hle)
            · exact Or.inr ⟨s0, hs0, hc1, hlen⟩
      · refine splitChunksLoop_le M sen rest _ (fun x hx => hmem x (List.mem_cons_of_mem s hx)) ?_ c hc2
        by_cases hsl : s.length + 2 ≤ M
        · exact Or.inr (Or.inl (by simp only [List.length_append, List.length_cons, List.length_nil]; omega))
        · exact Or.inr (Or.inr ⟨s, hmem s (List.mem_cons_self s rest), rfl, by omega⟩)

/-- Term map of `add_term` when the original passes the guard. -/
theorem add_term_terms (g : Glossary) (o t : List Char) (c : Option (List Char))
    (h : ¬(o = [] ∨ pyStrip o = [])) :
    (add_term g o t c).terms = dictSet g.terms (pyStrip o) (pyStrip t) := by
  simp [add_term, h]

/-- Usage map of `add_term` when the original passes the guard. -/
theorem add_term_usage (g : Glossary) (o t : List Char) (c : Option (List Char))
    (h : ¬(o = [] ∨ pyStrip o = [])) :
    (add_term g o t c).usage_count =
      dictSet g.usage_count (pyStrip o) (dictGetD g.usage_count (pyStrip o) 0 + 1) := by
  simp [add_term, h]

/-- With no context argument, `add_term` leaves the context map alone. -/
theorem add_term_context_none (g : Glossary) (o t : List Char) :
    (add_term g o t none).context = g.context := by
  by_cases h : o = [] ∨ pyStrip o = []
  · simp [add_term, h]
  · simp [add_term, h]

/-- A merge step over a canonical key other than `k` does not touch the
term or usage entries of `k`. -/
theorem mergeStep_preserves (other : Glossary) (pe : Bool) (g : Glossary)
    (p : List Char × List Char) (k : List Char)
    (hc : pyStrip p.1 = p.1) (hne : p.1 ≠ []) (hk : p.1 ≠ k) :
    dictGet (mergeStep other pe g p).terms k = dictGet g.terms k ∧
    dictGet (mergeStep other pe g p).usage_count k = dictGet g.usage_count k := by
  have hguard : ¬(p.1 = [] ∨ pyStrip p.1 = []) := by
    rw [hc]
    simp [hne]
  have hterms : ∀ t c, dictGet (add_term g p.1 t c).terms k = dictGet g.terms k := by
    intro t c
    rw [add_term_terms g p.1 t c hguard, hc, dictGet_dictSet_ne _ _ _ _ hk]
  have husage : ∀ t c, dictGet (add_term g p.1 t c).usage_count k = dictGet g.usage_count k := by
    intro t c
    rw [add_term_usage g p.1 t c hguard, hc, dictGet_dictSet_ne _ _ _ _ hk]
  have hsetne : ∀ (d : List (List Char × Nat)) (v : Nat),
      dictGet (dictSet d p.1 v) k = dictGet d k := fun d v =>
    dictGet_dictSet_ne d p.1 k v hk
  by_cases hm : dictMem g.terms p.1
  · by_cases hcond : pe = false ∨ dictGetD g.terms p.1 [] = []
    · constructor
      · simp [mergeStep, hm, hcond, hterms]
      · simp [mergeStep, hm, hcond, hsetne, husage]
    · constructor
      · simp [mergeStep, hm, hcond]
      · simp [mergeStep, hm, hcond, hsetne]
  · constructor
    · simp [mergeStep, hm, hterms]
    · simp [mergeStep, hm, hsetne, husage]

/-- Folding merge steps over canonical keys distinct from `k` preserves
the term and usage entries of `k`. -/
theorem mergeFold_preserves (other : Glossary) (pe : Bool) (k : List Char) :
    ∀ (l : List (List Char × List Char)) (g : Glossary),
    (∀ p ∈ l, pyStrip p.1 = p.1 ∧ p.1 ≠ [] ∧ p.1 ≠ k) →
    dictGet (l.foldl (mergeStep other pe) g).terms k = dictGet g.terms k ∧
    dictGet (l.foldl (mergeStep other pe) g).usage_count k = dictGet g.usage_count k
  | [], _, _ => ⟨rfl, rfl⟩
  | p :: l, g, h => by
    have hp := h p (List.mem_cons_self p l)
    have ih := mergeFold_preserves other pe k l (mergeStep other pe g p)
      (fun q hq => h q (List.mem_cons_of_mem p hq))
    have hs := mergeStep_preserves other pe g p k hp.1 hp.2.1 hp.2.2
    rw [List.foldl_cons]
    exact ⟨ih.1.trans hs.1, ih.2.trans hs.2⟩

/-- Evaluation of the merge step at a canonical key present in the local
term map: the usage count becomes local-so-far plus other's count, plus
one extra increment exactly when the translation is re-added through
`add_term`; with `prefer_existing` and a non-empty local translation the
stored translation survives. -/
theorem mergeStep_at_key (other : Glossary) (pe : Bool) (g1 : Glossary)
    (k v1 v2 : List Char) (hk : pyStrip k = k) (hkne : k ≠ [])
    (hv : dictGet g1.terms k = some v1) :
    dictGet (mergeStep other pe g1 (k, v2)).usage_count k =
      some (dictGetD g1.usage_count k 0 + dictGetD other.usage_count k 0 +
        (if pe = true ∧ v1 ≠ [] then 0 else 1)) ∧
    (pe = true → v1 ≠ [] → dictGet (mergeStep other pe g1 (k, v2)).terms k = some v1) := by
  have hm : dictMem g1.terms k = true := by simp [dictMem, hv]
  have hGetD : dictGetD g1.terms k [] = v1 := by simp [dictGetD, hv]
  have hguc : get_usage_count other k = dictGetD other.usage_count k 0 := by
    simp [get_usage_count, hkne, hk]
  have hguard : ¬(k = [] ∨ pyStrip k = []) := by
    rw [hk]
    simp [hkne]
  by_cases hcase : pe = true ∧ v1 ≠ []
  · have hcond : ¬(pe = false ∨ dictGetD g1.terms k [] = []) := by
      rw [hGetD, hcase.1]
      simp [hcase.2]
    have hstep : mergeStep other pe g1 (k, v2) =
        { g1 with
          usage_count :=
            dictSet g1.usage_count k
              (dictGetD g1.usage_count k 0 + get_usage_count other k) } := by
      simp [mergeStep, hm, hcond]
    constructor
    · rw [hstep]
      show dictGet (dictSet g1.usage_count k
        (dictGetD g1.usage_count k 0 + get_usage_count other k)) k = _
      rw [dictGet_dictSet_self, hguc, if_pos hcase, Nat.add_zero]
    · intro _ _
      rw [hstep]
      exact hv
  · have hcond : pe = false ∨ dictGetD g1.terms k [] = [] := by
      rw [hGetD]
      cases pe with
      | false => exact Or.inl rfl
      | true =>
        right
        by_contra hv1
        exact hcase ⟨rfl, hv1⟩
    have hstep : mergeStep other pe g1 (k, v2) =
        { add_term g1 k v2 none with
          usage_count :=
            dictSet (add_term g1 k v2 none).usage_count k
              (dictGetD (add_term g1 k v2 none).usage_count k 0 +
                get_usage_count other k) } := by
      simp [mergeStep, hm, hcond]
    constructor
    · rw [hstep]
      show dictGet (dictSet (add_term g1 k v2 none).usage_count k
        (dictGetD (add_term g1 k v2 none).usage_count k 0 +
          get_usage_count other k)) k = _
      rw [dictGet_dictSet_self, hguc, if_neg hcase]
      rw [add_term_usage g1 k v2 none hguard, hk]
      simp only [dictGetD, dictGet_dictSet_self, Option.getD_some]
      congr 1
      omega
    · intro hpe hv1
      exact absurd ⟨hpe, hv1⟩ hcase

/-- Evaluation of a full `merge_glossary` at a canonical key present in
both glossaries, assuming the other glossary's term keys are canonical
and duplicate-free (which holds of every dict built through
`add_term`). -/
theorem merge_at_key (g other : Glossary) (pe : Bool) (k v1 v2 : List Char)
    (hk : pyStrip k = k) (hkne : k ≠ [])
    (hoc : ∀ p ∈ other.terms, pyStrip p.1 = p.1 ∧ p.1 ≠ [])
    (hnd : (other.terms.map Prod.fst).Nodup)
    (hg : dictGet g.terms k = some v1)
    (ho : dictGet other.terms k = some v2) :
    dictGet (merge_glossary g other pe).usage_count k =
      some (dictGetD g.usage_count k 0 + dictGetD other.usage_count k 0 +
        (if pe = true ∧ v1 ≠ [] then 0 else 1)) ∧
    (pe = true → v1 ≠ [] → dictGet (merge_glossary g other pe).terms k = some v1) := by
  obtain ⟨d1, d2, hsplit, hd1⟩ := dictGet_split other.terms k v2 ho
  have hmem1 : ∀ p ∈ d1, p ∈ other.terms := by
    intro p hp
    rw [hsplit]
    exact List.mem_append_left _ hp
  have hmem2 : ∀ p ∈ d2, p ∈ other.terms := by
    intro p hp
    rw [hsplit]
    exact List.mem_append_right _ (List.mem_cons_of_mem _ hp)
  have hk2 : ∀ p ∈ d2, p.1 ≠ k := by
    rw [hsplit] at hnd
    simp only [List.map_append, List.map_cons] at hnd
    have h2 := hnd.of_append_right
    have h3 := (List.nodup_cons.mp h2).1
    intro p hp hpk
    exact h3 (List.mem_map.mpr ⟨p, hp, hpk⟩)
  have hoc1 : ∀ p ∈ d1, pyStrip p.1 = p.1 ∧ p.1 ≠ [] ∧ p.1 ≠ k := fun p hp =>
    ⟨(hoc p (hmem1 p hp)).1, (hoc p (hmem1 p hp)).2, hd1 p hp⟩
  have hoc2 : ∀ p ∈ d2, pyStrip p.1 = p.1 ∧ p.1 ≠ [] ∧ p.1 ≠ k := fun p hp =>
    ⟨(hoc p (hmem2 p hp)).1, (hoc p (hmem2 p hp)).2, hk2 p hp⟩
  unfold merge_glossary
  rw [hsplit, List.foldl_append, List.foldl_cons]
  have hpres1 := mergeFold_preserves other pe k d1 g hoc1
  have hmidterms : dictGet (d1.foldl (mergeStep other pe) g).terms k = some v1 :=
    hpres1.1.trans hg
  have hmidusage : dictGetD (d1.foldl (mergeStep other pe) g).usage_count k 0 =
      dictGetD g.usage_count k 0 := by
    simp [dictGetD, hpres1.2]
  have hstep := mergeStep_at_key other pe (d1.foldl (mergeStep other pe) g) k v1 v2 hk hkne hmidterms
  have hpres2 := mergeFold_preserves other pe k d2
    (mergeStep other pe (d1.foldl (mergeStep other pe) g) (k, v2)) hoc2
  constructor
  · rw [hpres2.2, hstep.1, hmidusage]
  · intro hpe hv1
    rw [hpres2.1, hstep.2 hpe hv1]

/-- The key returned by `argmaxFirst` comes from the scored list. -/
theorem argmaxFirst_mem_keys (k : List Char) (v : Nat) :
    ∀ (l : List (List Char × Nat)), argmaxFirst l = some (k, v) → k ∈ l.map Prod.fst
  | [], h => by simp [argmaxFirst] at h
  | (k0, v0) :: rest, h => by
    rw [argmaxFirst] at h
    cases hr : argmaxFirst rest with
    | none =>
      rw [hr] at h
      simp at h
      simp [h.1]
    | some p =>
      obtain ⟨k1, v1⟩ := p
      rw [hr] at h
      by_cases hgt : v1 > v0
      · simp [hgt] at h
        obtain ⟨hk1, hv1⟩ := h
        subst hk1
        subst hv1
        exact List.mem_cons_of_mem _ (argmaxFirst_mem_keys _ _ rest hr)
      · simp [hgt] at h
        simp [h.1]

/-- The keys of the score list are the pattern keys. -/
theorem patterns_keys : patterns.map Prod.fst =
    [cl ("es"), cl ("fr"), cl ("de"), cl ("it"), cl ("pt"), cl ("ja"), cl ("ko"),
     cl ("zh"), cl ("ru")] := rfl

/-- The code-point sniffing step only produces known codes. -/
theorem charRangeDetection_mem (text : List Char) :
    charRangeDetection text ∈ knownLanguageCodes := by
  unfold charRangeDetection
  repeat' split
  all_goals decide

/-- When every scored key is a known code, so is the picked result. -/
theorem scorePick_mem (scores : List (List Char × Nat)) (text : List Char)
    (hkeys : ∀ x ∈ scores.map Prod.fst, x ∈ knownLanguageCodes) :
    scorePick scores text ∈ knownLanguageCodes := by
  unfold scorePick
  cases hm : argmaxFirst scores with
  | none => exact charRangeDetection_mem text
  | some p =>
    obtain ⟨lang, score⟩ := p
    show (if 0 < score then lang else charRangeDetection text) ∈ knownLanguageCodes
    by_cases hs : 0 < score
    · rw [if_pos hs]
      exact hkeys lang (argmaxFirst_mem_keys lang score scores hm)
    · rw [if_neg hs]
      exact charRangeDetection_mem text

/-- The heuristic fallback only produces the nine pattern languages or
the English default. -/
theorem fallback_language_detection_mem (text : List Char) :
    fallback_language_detection text ∈ knownLanguageCodes := by
  by_cases h : text = []
  · rw [h]
    decide
  · rw [fallback_language_detection, if_neg h]
    refine scorePick_mem _ text ?_
    rw [List.map_map]
    have hcomp : (Prod.fst ∘ fun p : List Char × List (List Char) =>
        (p.1, (p.2.map (fun w => countOcc w (pyLower text))).sum)) =
        (Prod.fst : List Char × List (List Char) → List Char) := rfl
    rw [hcomp, patterns_keys]
    decide

/-- Claim C9: saving a glossary and loading the snapshot into a fresh
glossary reproduces the term, usage-count and context maps exactly. -/
theorem save_load_roundtrip (g : Glossary) :
    load_from_file emptyGlossary (save_to_file g) = g := by
  cases g
  rfl

/-- Claim C7: a term added with an empty or whitespace-only translation is
reported by `has_term`, yet `get_translation` reports it as not found. -/
theorem known_but_untranslated (g : Glossary) (original translated : List Char)
    (ctx : Option (List Char)) (h1 : pyStrip original ≠ []) (h2 : pyStrip translated = []) :
    get_translation (add_term g original translated ctx) original = none ∧
    has_term (add_term g original translated ctx) original = true := by
  have hne : original ≠ [] := fun he => h1 (by rw [he]; rfl)
  have hguard : ¬(original = [] ∨ pyStrip original = []) := by simp [hne, h1]
  constructor
  · rw [get_translation, if_neg hguard, add_term_terms g original translated ctx hguard,
      dictGet_dictSet_self, h2]
    simp
  · rw [has_term, if_neg hne, dictMem, add_term_terms g original translated ctx hguard,
      dictGet_dictSet_self]
    rfl

/-- Witness for C7 at a concrete term with a whitespace-only translation. -/
theorem known_but_untranslated_witness :
    get_translation (add_term emptyGlossary (cl ("t")) (cl (" ")) none) (cl ("t")) = none ∧
    has_term (add_term emptyGlossary (cl ("t")) (cl (" ")) none) (cl ("t")) = true :=
  known_but_untranslated emptyGlossary (cl ("t")) (cl (" ")) none (by decide) (by decide)

/-- Claim C3: `translate_text_chunk` is a total function, and whenever the
backend model is unavailable or the invocation raises it returns exactly
the upper-cased target code in brackets, a space, and the original
chunk. -/
theorem translate_text_chunk_placeholder (text_chunk source_lang target_lang : List Char)
    (model_session : Option ModelSession)
    (h : model_session = none ∨ ∃ run e, model_session = some run ∧
      run text_chunk source_lang target_lang = Except.error e) :
    translate_text_chunk text_chunk model_session source_lang target_lang =
      '[' :: (pyUpper target_lang ++ ']' :: ' ' :: text_chunk) := by
  rcases h with rfl | ⟨run, e, rfl, herr⟩
  · rfl
  · simp [translate_text_chunk, herr]

/-- Witness for C3 with an absent backend model. -/
theorem translate_text_chunk_placeholder_witness :
    translate_text_chunk (cl ("hi")) none (cl ("en")) (cl ("es")) =
      '[' :: (pyUpper (cl ("es")) ++ ']' :: ' ' :: cl ("hi")) :=
  translate_text_chunk_placeholder (cl ("hi")) (cl ("en")) (cl ("es")) none (Or.inl rfl)

/-- Claim C4, evaluated at the failing input: on non-whitespace input with
the `langdetect` library absent, `detect_language` propagates an error
instead of returning a language code — the `except LangDetectException`
handler evaluates a name the failed import never bound, so an
`UnboundLocalError` escapes and the `except ImportError` clause is never
reached. Empty or whitespace-only input and a present-but-failing
detector still behave as the claim says, as the last two conjuncts
record. -/
theorem detect_language_import_error_raises :
    detect_language failDetector (cl ("hi")) = Except.error () ∧
    pyStrip (cl ("hi")) ≠ [] ∧
    detect_language failDetector (cl ("  ")) = Except.ok (cl ("en")) ∧
    detect_language ldeDetector (cl ("hi")) =
      Except.ok (fallback_language_detection ((pyStrip (cl ("hi"))).take 1000)) :=
  ⟨rfl, by decide, rfl, rfl⟩

/-- Counterexample to Claim C5 as stated: with `prefer_existing = false`
the merged usage count differs from the plain sum of the two counts. -/
theorem merge_usage_count_not_plain_sum :
    dictGetD (merge_glossary gLocal gOther false).usage_count (cl ("k")) 0 ≠
      dictGetD gLocal.usage_count (cl ("k")) 0 +
        dictGetD gOther.usage_count (cl ("k")) 0 := by decide

/-- Claim C5 (amended): for a canonical term present in both glossaries,
merging adds the two usage counts, plus one extra increment exactly when
the translation is re-added through `add_term` (that is, when
`prefer_existing` is false or the local translation is empty). -/
theorem merge_usage_count_formula (g other : Glossary) (pe : Bool) (k v1 v2 : List Char)
    (hk : pyStrip k = k) (hkne : k ≠ [])
    (hoc : ∀ p ∈ other.terms, pyStrip p.1 = p.1 ∧ p.1 ≠ [])
    (hnd : (other.terms.map Prod.fst).Nodup)
    (hg : dictGet g.terms k = some v1)
    (ho : dictGet other.terms k = some v2) :
    get_usage_count (merge_glossary g other pe) k =
      get_usage_count g k + get_usage_count other k +
        (if pe = true ∧ v1 ≠ [] then 0 else 1) := by
  have hmain := (merge_at_key g other pe k v1 v2 hk hkne hoc hnd hg ho).1
  have hguc : ∀ g0 : Glossary, get_usage_count g0 k = dictGetD g0.usage_count k 0 := by
    intro g0
    simp [get_usage_count, hkne, hk]
  rw [hguc, hguc, hguc]
  simp [dictGetD, hmain]

/-- Witness for the amended C5 at concrete glossaries. -/
theorem merge_usage_count_formula_witness :
    get_usage_count (merge_glossary gLocal gOther false) (cl ("k")) =
      get_usage_count gLocal (cl ("k")) + get_usage_count gOther (cl ("k")) +
        (if (false = true ∧ cl ("v1") ≠ []) then 0 else 1) :=
  merge_usage_count_formula gLocal gOther false (cl ("k")) (cl ("v1")) (cl ("v2"))
    (by decide) (by decide) (by decide) (by decide) (by decide) (by decide)

/-- Claim C8: with `prefer_existing = true`, a conflicting remote
translation for a term with a non-empty local translation leaves the
local translation in place while the usage counts are summed. -/
theorem merge_prefer_existing_keeps_local (g other : Glossary) (k v1 v2 : List Char)
    (hk : pyStrip k = k) (hkne : k ≠ [])
    (hoc : ∀ p ∈ other.terms, pyStrip p.1 = p.1 ∧ p.1 ≠ [])
    (hnd : (other.terms.map Prod.fst).Nodup)
    (hg : dictGet g.terms k = some v1)
    (ho : dictGet other.terms k = some v2)
    (hv1 : v1 ≠ []) (_hne12 : v2 ≠ v1) :
    dictGet (merge_glossary g other true).terms k = some v1 ∧
    get_usage_count (merge_glossary g other true) k =
      get_usage_count g k + get_usage_count other k := by
  have hmain := merge_at_key g other true k v1 v2 hk hkne hoc hnd hg ho
  refine ⟨hmain.2 rfl hv1, ?_⟩
  have husage := hmain.1
  rw [if_pos ⟨rfl, hv1⟩, Nat.add_zero] at husage
  have hguc : ∀ g0 : Glossary, get_usage_count g0 k = dictGetD g0.usage_count k 0 := by
    intro g0
    simp [get_usage_count, hkne, hk]
  rw [hguc, hguc, hguc]
  simp [dictGetD, husage]

/-- Witness for C8 at concrete glossaries with conflicting translations. -/
theorem merge_prefer_existing_keeps_local_witness :
    dictGet (merge_glossary gLocal gOther true).terms (cl ("k")) = some (cl ("v1")) ∧
    get_usage_count (merge_glossary gLocal gOther true) (cl ("k")) =
      get_usage_count gLocal (cl ("k")) + get_usage_count gOther (cl ("k")) :=
  merge_prefer_existing_keeps_local gLocal gOther (cl ("k")) (cl ("v1")) (cl ("v2"))
    (by decide) (by decide) (by decide) (by decide) (by decide) (by decide)
    (by decide) (by decide)

/-- Counterexample to Claim C6 as stated: a context equal to an earlier,
non-last history entry is not appended — the code deduplicates against
the whole history, not just its last entry. -/
theorem add_term_context_counterexample :
    dictGet (add_term gCtx (cl ("t")) (cl ("v")) (some (cl ("a")))).context (cl ("t")) =
      some [cl ("a"), cl ("b")] ∧
    cl ("a") ≠ cl ("b") ∧
    [cl ("a"), cl ("b")] ≠ [cl ("a"), cl ("b"), cl ("a")] := by decide

/-- Claim C6 (amended): a non-empty context is appended to the term's
history unless it already occurs anywhere in that history (in which case
the history is unchanged); on an append the history is truncated to its
most recent five entries. -/
theorem add_term_context_formula (g : Glossary) (original translated ctx : List Char)
    (h1 : pyStrip original ≠ []) (h2 : ctx ≠ []) :
    dictGet (add_term g original translated (some ctx)).context (pyStrip original) =
      some (
        if ctx ∈ dictGetD g.context (pyStrip original) [] then
          dictGetD g.context (pyStrip original) []
        else if 5 < (dictGetD g.context (pyStrip original) [] ++ [ctx]).length then
          (dictGetD g.context (pyStrip original) [] ++ [ctx]).drop
            ((dictGetD g.context (pyStrip original) [] ++ [ctx]).length - 5)
        else dictGetD g.context (pyStrip original) [] ++ [ctx]) := by
  have hne : original ≠ [] := fun he => h1 (by rw [he]; rfl)
  have hguard : ¬(original = [] ∨ pyStrip original = []) := by simp [hne, h1]
  have hctx : (add_term g original translated (some ctx)).context =
      (if ctx ∈ dictGetD g.context (pyStrip original) [] then g.context
       else dictSet g.context (pyStrip original)
         (if 5 < (dictGetD g.context (pyStrip original) [] ++ [ctx]).length then
            (dictGetD g.context (pyStrip original) [] ++ [ctx]).drop
              ((dictGetD g.context (pyStrip original) [] ++ [ctx]).length - 5)
          else dictGetD g.context (pyStrip original) [] ++ [ctx])) := by
    simp [add_term, hguard, h2]
  by_cases hmem : ctx ∈ dictGetD g.context (pyStrip original) []
  · rw [hctx, if_pos hmem, if_pos hmem]
    cases hdg : dictGet g.context (pyStrip original) with
    | none =>
      rw [dictGetD, hdg] at hmem
      simp at hmem
    | some hist =>
      rw [dictGetD, hdg]
      simp
  · rw [hctx, if_neg hmem, if_neg hmem, dictGet_dictSet_self]

/-- Witness for the amended C6: a fresh context is appended to the
history. -/
theorem add_term_context_formula_witness :
    dictGet (add_term gCtx (cl ("t")) (cl ("v")) (some (cl ("c")))).context
        (pyStrip (cl ("t"))) =
      some (
        if cl ("c") ∈ dictGetD gCtx.context (pyStrip (cl ("t"))) [] then
          dictGetD gCtx.context (pyStrip (cl ("t"))) []
        else if 5 < (dictGetD gCtx.context (pyStrip (cl ("t"))) [] ++ [cl ("c")]).length then
          (dictGetD gCtx.context (pyStrip (cl ("t"))) [] ++ [cl ("c")]).drop
            ((dictGetD gCtx.context (pyStrip (cl ("t"))) [] ++ [cl ("c")]).length - 5)
        else dictGetD gCtx.context (pyStrip (cl ("t"))) [] ++ [cl ("c")]) :=
  add_term_context_formula gCtx (cl ("t")) (cl ("v")) (cl ("c")) (by decide) (by decide)

/-- Counterexample to Claim C2 as stated: a whitespace-only (non-empty)
chapter whose content's detected language equals the target language is
returned as the empty string, not as the original text; the glossary is
still untouched. -/
theorem translate_chapter_whitespace_counterexample :
    detect_language failDetector [' '] = Except.ok (cl ("en")) ∧
    translate_chapter failDetector idEmotion none (some [' ']) (cl ("en")) emptyGlossary =
      Except.ok ([], emptyGlossary) ∧
    ([] : List Char) ≠ [' '] :=
  ⟨rfl, rfl, by decide⟩

/-- Claim C2 (amended): on a chapter whose content is neither empty nor
whitespace-only, when language detection succeeds and returns the target
language, `translate_chapter` returns the original text unchanged and the
chapter glossary state is completely unmodified (no chunking, no backend
call, no glossary write happens). -/
theorem translate_chapter_same_language_identity (detector : List Char → DetectorResult)
    (emotion : List Char → Except Unit (List Char)) (session : Option ModelSession)
    (text target_lang : List Char) (g : Glossary)
    (h1 : pyStrip text ≠ [])
    (h2 : detect_language detector text = Except.ok target_lang) :
    translate_chapter detector emotion session (some text) target_lang g =
      Except.ok (text, g) := by
  simp [translate_chapter, h1, h2]

/-- Witness for the amended C2: a detector reporting Spanish on a Spanish
target returns the chapter unchanged. -/
theorem translate_chapter_same_language_identity_witness :
    translate_chapter esDetector idEmotion none (some (cl ("hi"))) (cl ("es")) emptyGlossary =
      Except.ok (cl ("hi"), emptyGlossary) :=
  translate_chapter_same_language_identity esDetector idEmotion none (cl ("hi")) (cl ("es"))
    emptyGlossary (by decide) rfl

/-- Counterexample to Claim C1 as stated: with bound 2 and the two-letter
input, the single produced unit has length 3 even though no sentence
fragment of the input exceeds the bound. -/
theorem chunk_oversize_without_oversized_fragment :
    split_text_into_chunks (cl ("aa")) 2 = [cl ("aa.")] ∧
    2 < (cl ("aa.")).length ∧
    ∀ s ∈ pySentences (cl ("aa")), s.length ≤ 2 := by decide

/-- Claim C1 (amended): every produced unit has length at most the chunk
bound, except that a unit may exceed the bound only when it is a single
sentence fragment, re-suffixed with the period and trimmed, whose own
length is at least the bound (so that the appended period pushes it over
the bound). -/
theorem chunk_length_bound (text : List Char) (M : Nat) :
    ∀ c ∈ split_text_into_chunks text M, M < c.length →
      ∃ s, s ∈ pySentences text ∧ c = pyStrip (s ++ ['.', ' ']) ∧ M ≤ s.length := by
  intro c hc hlen
  have h := splitChunksLoop_le M (pySentences text) (pySentences text) []
    (fun x hx => hx) (Or.inl rfl) c hc
  rcases h with h | ⟨s, hs, hceq, h2⟩
  · omega
  · refine ⟨s, hs, hceq, ?_⟩
    have hlen2 : (pyStrip (s ++ ['.', ' '])).length ≤ s.length + 1 := by
      rw [pyStrip_append_dot_space]
      have h3 := dropWhile_length_le isPyWhitespace s
      simp only [List.length_append, List.length_cons, List.length_nil, pyLstrip] at *
      omega
    rw [hceq] at hlen
    omega

/-- Witness for the amended C1 at the oversized concrete unit. -/
theorem chunk_length_bound_witness :
    ∃ s, s ∈ pySentences (cl ("aa")) ∧ cl ("aa.") = pyStrip (s ++ ['.', ' ']) ∧ 2 ≤ s.length :=
  chunk_length_bound (cl ("aa")) 2 (cl ("aa.")) (by decide) (by decide)

/-- Claim C10: chunking always yields a non-empty sequence whose units are
non-empty and end with a period, and the empty string chunks to the
single unit consisting of one period, for every chunk bound. -/
theorem chunks_nonempty_end_period (text : List Char) (M : Nat) :
    split_text_into_chunks text M ≠ [] ∧
    (∀ c ∈ split_text_into_chunks text M, c ≠ [] ∧ c.getLast? = some '.') ∧
    split_text_into_chunks [] M = [['.']] := by
  refine ⟨?_, ?_, ?_⟩
  · exact splitChunksLoop_ne_nil M (pySentences text) [] (Or.inl (splitDotSpace_ne_nil _ _))
  · intro c hc
    obtain ⟨w, rfl⟩ := splitChunksLoop_shape M (pySentences text) [] (Or.inl rfl) c hc
    exact ⟨by simp, List.getLast?_concat _⟩
  · show splitChunksLoop M [[]] [] = [['.']]
    have hps : pyStrip ['.', ' '] = ['.'] := by decide
    rw [splitChunksLoop]
    by_cases h : ([] : List Char).length + ([] : List Char).length + 2 ≤ M
    · rw [if_pos h]
      simp [splitChunksLoop, hps]
    · rw [if_neg h]
      simp [splitChunksLoop, hps]

/-- Witness for C10 at a concrete text without a final period. -/
theorem chunks_nonempty_end_period_witness :
    split_text_into_chunks (cl ("hi")) 4 ≠ [] ∧
    (cl ("hi.") ≠ [] ∧ (cl ("hi.")).getLast? = some '.') ∧
    split_text_into_chunks [] 4 = [['.']] :=
  ⟨(chunks_nonempty_end_period (cl ("hi")) 4).1,
   (chunks_nonempty_end_period (cl ("hi")) 4).2.1 (cl ("hi.")) (by decide),
   (chunks_nonempty_end_period (cl ("hi")) 4).2.2⟩
